import Mathlib

/-!
Verification of the image-analysis characterization pipeline.

This file gives a shallow embedding, in Lean, of the numeric core of the
image-analysis repository (histogram, tonal, color and spatial engines plus
the EXIF fraction / GPS conversion helpers), and proves or refutes the
frozen claims about it.

Modelling conventions:
* An 8-bit pixel channel is a `Fin 256`; a pixel buffer is the row-major
  flattened list of its RGB pixels (the engines flatten the array anyway).
* Python/numpy float64 arithmetic is modelled by exact rational arithmetic
  over `ℚ`; `astype(np.uint8)` / `int(...)` truncation and Python's
  banker's rounding `round(x, n)` are modelled exactly over `ℚ`.
* External numeric primitives that the spec treats as collaborator
  capabilities (sklearn's k-means, `np.sqrt`, `np.log2`, `cv2.medianBlur`)
  are parameters of the embedded functions.  `ratSqrt` is a concrete
  stand-in for the square-root primitive which is exact on the
  perfect-square rationals appearing in concrete witnesses.
-/

/-- Python `int(x)` on a float: truncation toward zero. -/
def pyInt (q : ℚ) : ℤ := if 0 ≤ q then ⌊q⌋ else -⌊-q⌋

/-- Round to the nearest integer, ties to even (Python / numpy rounding). -/
def roundHalfEven (q : ℚ) : ℤ :=
  let f : ℤ := ⌊q⌋
  let r : ℚ := q - f
  if r < 1/2 then f
  else if 1/2 < r then f + 1
  else if f % 2 = 0 then f else f + 1

/-- Python `round(q, n)`: round to `n` decimal digits, ties to even. -/
def pyRound (n : ℕ) (q : ℚ) : ℚ := (roundHalfEven (q * 10 ^ n) : ℚ) / 10 ^ n

/-- Concrete stand-in for the collaborator square-root primitive.
Exact on rationals whose numerator and denominator are perfect squares,
which covers every concrete input used in this file. -/
def ratSqrt (q : ℚ) : ℚ := (Nat.sqrt q.num.toNat : ℚ) / (Nat.sqrt q.den : ℚ)

/-- An 8-bit RGB pixel (channel order R, G, B). -/
abbrev RGB : Type := Fin 256 × Fin 256 × Fin 256

/-- A decoded pixel buffer: the row-major list of its pixels. -/
abbrev PixelBuffer : Type := List RGB

/-- The real-valued luminance `0.299*R + 0.587*G + 0.114*B` of a pixel
(`histogram.py` line 29, `tonal.py` line 20). -/
def lumQ (p : RGB) : ℚ :=
  0.299 * (p.1.val : ℚ) + 0.587 * (p.2.1.val : ℚ) + 0.114 * (p.2.2.val : ℚ)

/-- The 8-bit luminance of a pixel: the float expression truncated by
`astype(np.uint8)` (truncation toward zero = floor, as the value is
nonnegative). -/
def lum (p : RGB) : ℕ := (⌊lumQ p⌋).toNat

/-- `cv2.calcHist` over one 8-bit channel: 256 bins of occurrence counts. -/
def hist_channel (vals : List ℕ) : List ℕ :=
  (List.range 256).map fun v => vals.count v

/-- The four histograms returned by `calculate_histogram`. -/
structure Histogram where
  red : List ℕ
  green : List ℕ
  blue : List ℕ
  luminance : List ℕ
deriving DecidableEq

/-- `calculate_histogram` (`histogram.py` lines 18-31): per-channel and
luminance 256-bin histograms of an 8-bit buffer. -/
def calculate_histogram (B : PixelBuffer) : Histogram where
  red := hist_channel (B.map fun p => p.1.val)
  green := hist_channel (B.map fun p => p.2.1.val)
  blue := hist_channel (B.map fun p => p.2.2.val)
  luminance := hist_channel (B.map lum)

/-- The luminance values of a buffer (`tonal.py` line 20). -/
def lum_list (B : PixelBuffer) : List ℕ := B.map lum

/-- `np.sum(luminance <= 64)` (`tonal.py` line 28). -/
def shadows_pixels (B : PixelBuffer) : ℕ :=
  (lum_list B).countP fun v => decide (v ≤ 64)

/-- `np.sum((luminance > 64) & (luminance < 193))` (`tonal.py` line 29). -/
def midtones_pixels (B : PixelBuffer) : ℕ :=
  (lum_list B).countP fun v => decide (64 < v) && decide (v < 193)

/-- `np.sum(luminance >= 193)` (`tonal.py` line 30). -/
def highlights_pixels (B : PixelBuffer) : ℕ :=
  (lum_list B).countP fun v => decide (193 ≤ v)

/-- `np.mean` of a list of rationals. -/
def npMean (l : List ℚ) : ℚ := l.sum / l.length

/-- `np.var` of a list of rationals (population variance, ddof = 0). -/
def npVar (l : List ℚ) : ℚ := ((l.map fun x => (x - npMean l) ^ 2).sum) / l.length

/-- `np.std` of a list of rationals, given the square-root primitive. -/
def npStd (sqrt : ℚ → ℚ) (l : List ℚ) : ℚ := sqrt (npVar l)

/-- `np.median` of a list of rationals: middle of the sorted list, or the
mean of the two middle elements for even length. -/
def npMedian (l : List ℚ) : ℚ :=
  let s := l.mergeSort fun a b => decide (a ≤ b)
  let n := s.length
  if n % 2 = 1 then s.getD (n / 2) 0
  else (s.getD (n / 2 - 1) 0 + s.getD (n / 2) 0) / 2

/-- `np.mean(image[:, :, 0])` — mean of the red channel. -/
def avg_r (B : PixelBuffer) : ℚ := npMean (B.map fun p => (p.1.val : ℚ))

/-- `np.mean(image[:, :, 1])` — mean of the green channel. -/
def avg_g (B : PixelBuffer) : ℚ := npMean (B.map fun p => (p.2.1.val : ℚ))

/-- `np.mean(image[:, :, 2])` — mean of the blue channel. -/
def avg_b (B : PixelBuffer) : ℚ := npMean (B.map fun p => (p.2.2.val : ℚ))

/-- Result record of `detect_color_cast`. -/
structure ColorCast where
  detected : Bool
  direction : String
  severity : ℚ
deriving DecidableEq

/-- `detect_color_cast` (`color.py` lines 126-176): channel deviations from
the grand mean of the three channel means (the mean floored at 1), a 5%
detection threshold, direction from the dominant deviation, severity
clamped to 1 and rounded to 3 digits. -/
def detect_color_cast (r g b : ℚ) : ColorCast :=
  let avg_all0 : ℚ := (r + g + b) / 3
  let avg_all : ℚ := if avg_all0 < 1 then 1 else avg_all0
  let r_deviation : ℚ := (r - avg_all) / avg_all
  let g_deviation : ℚ := (g - avg_all) / avg_all
  let b_deviation : ℚ := (b - avg_all) / avg_all
  let max_deviation : ℚ := max |r_deviation| (max |g_deviation| |b_deviation|)
  if max_deviation < 0.05 then
    { detected := false, direction := "none", severity := 0 }
  else if |g_deviation| < |r_deviation| ∧ |b_deviation| < |r_deviation| then
    { detected := true, direction := if 0 < r_deviation then "red" else "cyan",
      severity := pyRound 3 (min |r_deviation| 1) }
  else if |b_deviation| < |g_deviation| then
    { detected := true, direction := if 0 < g_deviation then "green" else "magenta",
      severity := pyRound 3 (min |g_deviation| 1) }
  else
    { detected := true, direction := if 0 < b_deviation then "blue" else "yellow",
      severity := pyRound 3 (min |b_deviation| 1) }

/-- `np.sort(luminance.flatten())` (`tonal.py` line 58). -/
def sorted_lum (B : PixelBuffer) : List ℕ :=
  (lum_list B).mergeSort fun a b => decide (a ≤ b)

/-- `int(total_pixels * 0.02)` (`tonal.py` line 59). -/
def p2_idx (B : PixelBuffer) : ℕ := B.length * 2 / 100

/-- `int(total_pixels * 0.98)` (`tonal.py` line 60). -/
def p98_idx (B : PixelBuffer) : ℕ := B.length * 98 / 100

/-- `float(np.min(luminance))` (`tonal.py` line 50). -/
def min_lum (B : PixelBuffer) : ℕ := (lum_list B).min?.getD 0

/-- `float(np.max(luminance))` (`tonal.py` line 49). -/
def max_lum (B : PixelBuffer) : ℕ := (lum_list B).max?.getD 0

/-- `low_val` (`tonal.py` lines 62-67): the 2nd-percentile-by-index sorted
luminance, guarded by `p98_idx < len(sorted_lum) and p2_idx >= 0`
(the second conjunct is always true for natural indices). -/
def low_val (B : PixelBuffer) : ℚ :=
  if p98_idx B < (sorted_lum B).length then ((sorted_lum B).getD (p2_idx B) 0 : ℚ)
  else (min_lum B : ℚ)

/-- `high_val` (`tonal.py` lines 62-67). -/
def high_val (B : PixelBuffer) : ℚ :=
  if p98_idx B < (sorted_lum B).length then ((sorted_lum B).getD (p98_idx B) 0 : ℚ)
  else (max_lum B : ℚ)

/-- `luminance[luminance < 32]` (`tonal.py` line 70). -/
def dark_pixels (B : PixelBuffer) : List ℕ :=
  (lum_list B).filter fun v => decide (v < 32)

/-- `noise_floor` (`tonal.py` lines 71-74): `max(std(dark), 1.0)` when
`len(dark_pixels) > 100`, else `1.0`. -/
def noise_floor (sqrt : ℚ → ℚ) (B : PixelBuffer) : ℚ :=
  if 100 < (dark_pixels B).length then
    max (npStd sqrt ((dark_pixels B).map fun v : ℕ => (v : ℚ))) 1
  else 1

/-- `usable_range = max(high_val - low_val, 1.0)` (`tonal.py` line 77). -/
def usable_range (B : PixelBuffer) : ℚ := max (high_val B - low_val B) 1

/-- `dynamic_range_stops` before rounding (`tonal.py` lines 78-81):
`log2(usable_range / noise_floor)` clamped to `[0, 20]`, with `np.log2`
the collaborator logarithm primitive. -/
def dynamic_range_stops (sqrt log2 : ℚ → ℚ) (B : PixelBuffer) : ℚ :=
  max 0 (min (log2 (usable_range B / noise_floor sqrt B)) 20)

/-- Modelled from the spec: claim C7's own wording of the noise floor
("std of pixels with luminance < 32, replaced by 1.0 exactly when fewer
than 100 such pixels exist or the computed standard deviation is below
1.0"), kept separate for refinement comparison against `noise_floor`. -/
def spec_noise_floor (sqrt : ℚ → ℚ) (B : PixelBuffer) : ℚ :=
  let s := npStd sqrt ((dark_pixels B).map fun v : ℕ => (v : ℚ))
  if (dark_pixels B).length < 100 ∨ s < 1 then 1 else s

/-- A single-channel (luma) plane: the list of its pixel rows. -/
abbrev Plane : Type := List (List ℕ)

/-- Width of a plane (`gray.shape[1]`). -/
def planeW (g : Plane) : ℕ := (g.headD []).length

/-- The flattened 32×32 block `gray[i:i+32, j:j+32]` as rationals. -/
def grayBlock (g : Plane) (i j : ℕ) : List ℚ :=
  ((g.drop i).take 32).flatMap fun row => ((row.drop j).take 32).map fun v : ℕ => (v : ℚ)

/-- `range(0, n - 32, 32)`: block start offsets scanned by
`estimate_noise` (`spatial.py` lines 91-92).  Multiples of 32 strictly
below `n - 32` (empty when `n ≤ 32`, matching Python's empty range for a
non-positive stop). -/
def block_starts (n : ℕ) : List ℕ :=
  (List.range n).filter fun i => decide (i % 32 = 0) && decide (i < n - 32)

/-- `noise_estimates` (`spatial.py` lines 89-98): the standard deviations
of the scanned blocks whose variance is below 100, in scan order. -/
def noise_estimates (sqrt : ℚ → ℚ) (g : Plane) : List ℚ :=
  (block_starts g.length).flatMap fun i =>
    (block_starts (planeW g)).filterMap fun j =>
      if npVar (grayBlock g i j) < 100 then some (sqrt (npVar (grayBlock g i j))) else none

/-- `gray.astype(float) - median_filtered.astype(float)`, flattened
(`spatial.py` line 107). -/
def grayResidual (g filtered : Plane) : List ℚ :=
  (g.zip filtered).flatMap fun rr => (rr.1.zip rr.2).map fun vv => (vv.1 : ℚ) - (vv.2 : ℚ)

/-- `estimate_noise` (`spatial.py` lines 86-108), parameterized by the
square-root primitive and the `cv2.medianBlur` collaborator: the median of
the flat-block deviations when any exist, else the standard deviation of
the median-filter residual. -/
def estimate_noise (sqrt : ℚ → ℚ) (medianBlur : Plane → Plane) (g : Plane) : ℚ :=
  if noise_estimates sqrt g = [] then npStd sqrt (grayResidual g (medianBlur g))
  else npMedian (noise_estimates sqrt g)

/-- The fixed palette of 24 named CSS colors (`utils.py` lines 19-44),
in dictionary iteration order. -/
def CSS_COLORS : List (String × ℤ × ℤ × ℤ) :=
  [("black", 0, 0, 0), ("white", 255, 255, 255), ("red", 255, 0, 0),
   ("lime", 0, 255, 0), ("blue", 0, 0, 255), ("yellow", 255, 255, 0),
   ("cyan", 0, 255, 255), ("magenta", 255, 0, 255), ("silver", 192, 192, 192),
   ("gray", 128, 128, 128), ("maroon", 128, 0, 0), ("olive", 128, 128, 0),
   ("green", 0, 128, 0), ("purple", 128, 0, 128), ("teal", 0, 128, 128),
   ("navy", 0, 0, 128), ("orange", 255, 165, 0), ("pink", 255, 192, 203),
   ("brown", 165, 42, 42), ("beige", 245, 245, 220), ("tan", 210, 180, 140),
   ("gold", 255, 215, 0), ("indigo", 75, 0, 130), ("violet", 238, 130, 238)]

/-- Squared Euclidean distance between integer RGB triples.
`euclidean_distance` takes the square root, but `get_nearest_color_name`
only compares distances, and comparison of nonnegative square roots is
equivalent to comparison of the squares, so the embedding compares
squares. -/
def distSq (a b : ℤ × ℤ × ℤ) : ℤ :=
  (a.1 - b.1) ^ 2 + (a.2.1 - b.2.1) ^ 2 + (a.2.2 - b.2.2) ^ 2

/-- `get_nearest_color_name` (`utils.py` lines 102-121): fold over the
palette tracking the strictly smallest distance; `min_distance` starts at
infinity (modelled by `none`), so the first entry always wins initially
and ties are broken by palette order. -/
def get_nearest_color_name (rgb : ℤ × ℤ × ℤ) : String :=
  (CSS_COLORS.foldl (fun acc nc =>
    match acc.1 with
    | none => (some (distSq rgb nc.2), nc.1)
    | some bd => if distSq rgb nc.2 < bd then (some (distSq rgb nc.2), nc.1) else acc)
    ((none : Option ℤ), "gray")).2

/-- One lowercase hex digit. -/
def hexDigit (n : ℕ) : Char :=
  if n < 10 then Char.ofNat (48 + n) else Char.ofNat (87 + n)

/-- `"{:02x}".format(n)` for `0 ≤ n < 256`. -/
def hexByte (n : ℕ) : String := String.mk [hexDigit (n / 16 % 16), hexDigit (n % 16)]

/-- `rgb_to_hex` (`utils.py` lines 88-90), for the nonnegative 8-bit
components produced by the color engine. -/
def rgb_to_hex (c : ℤ × ℤ × ℤ) : String :=
  "#" ++ hexByte c.1.toNat ++ hexByte c.2.1.toNat ++ hexByte c.2.2.toNat

/-- Output of the k-means collaborator (`sklearn.cluster.KMeans` with
`random_state=42, n_init=10`): fitted cluster centers and per-sample
labels.  `none` models the exception path caught by
`extract_dominant_colors`. -/
structure KMeansResult where
  centers : List (ℚ × ℚ × ℚ)
  labels : List ℕ
deriving DecidableEq

/-- The pixel list actually clustered (`color.py` lines 76-81): when the
image has more than 10,000 pixels, the pixels selected by the indices
that `np.random.choice(len(pixels), 10000, replace=False)` drew from the
global — unseeded — numpy generator; the draw is therefore an explicit
input of the embedding. -/
def sampled_pixels (img : PixelBuffer) (idx : List ℕ) : PixelBuffer :=
  if 10000 < img.length then idx.map fun i => img.getD i (0, 0, 0) else img

/-- `np.unique(labels)`: the distinct label values in increasing order. -/
def np_unique (l : List ℕ) : List ℕ :=
  l.dedup.mergeSort fun a b => decide (a ≤ b)

/-- One dominant-color entry (`color.py` lines 102-107). -/
structure ColorEntry where
  rgb : List ℤ
  hex : String
  percentage : ℚ
  name : String
deriving DecidableEq

/-- `center.astype(int)` per coordinate. -/
def center_to_int (c : ℚ × ℚ × ℚ) : ℤ × ℤ × ℤ := (pyInt c.1, pyInt c.2.1, pyInt c.2.2)

/-- The entry built for a (center, count) pair (`color.py` lines 98-108). -/
def mk_color_entry (total : ℕ) (c : (ℚ × ℚ × ℚ) × ℕ) : ColorEntry :=
  let rgbI := center_to_int c.1
  { rgb := [rgbI.1, rgbI.2.1, rgbI.2.2]
    hex := rgb_to_hex rgbI
    percentage := pyRound 2 ((c.2 : ℚ) / ((total : ℚ)) * 100)
    name := get_nearest_color_name rgbI }

/-- The clustering-failure fallback entry (`color.py` lines 115-123):
the truncated per-channel mean of the clustered pixels at 100%. -/
def fallback_entry (pixels : PixelBuffer) : ColorEntry :=
  let m : ℤ × ℤ × ℤ :=
    (pyInt (npMean (pixels.map fun p => (p.1.val : ℚ))),
     pyInt (npMean (pixels.map fun p => (p.2.1.val : ℚ))),
     pyInt (npMean (pixels.map fun p => (p.2.2.val : ℚ))))
  { rgb := [m.1, m.2.1, m.2.2], hex := rgb_to_hex m, percentage := 100,
    name := get_nearest_color_name m }

/-- `extract_dominant_colors` (`color.py` lines 64-123) with `n_colors = 5`,
parameterized by the k-means collaborator `K` and the sampling draw
`idx`: pair `np.unique` counts with the centers (`zip` truncates at the
shorter list), build entries, sort by percentage descending; on
clustering failure return the single mean-color entry. -/
def extract_dominant_colors (K : PixelBuffer → Option KMeansResult)
    (img : PixelBuffer) (idx : List ℕ) : List ColorEntry :=
  let pixels := sampled_pixels img idx
  match K pixels with
  | some r =>
    let uniq := np_unique r.labels
    let counts := uniq.map fun v => r.labels.count v
    let entries := (r.centers.zip counts).map (mk_color_entry r.labels.length)
    entries.mergeSort fun a b => decide (b.percentage ≤ a.percentage)
  | none => [fallback_entry pixels]

/-- A concrete deterministic k-means collaborator used in counterexamples:
when the sample has at most 5 distinct colors it assigns one cluster per
distinct color (within-cluster squared distance 0 — the global optimum of
the clustering objective, so this behavior conforms to the §4.4 contract;
sklearn's seeded k-means likewise returns one distinct label per distinct
color on such degenerate inputs).  Unused cluster centers are padded
arbitrarily; they receive no label. -/
def kmeansExact (pixels : PixelBuffer) : Option KMeansResult :=
  let ds := pixels.dedup
  if ds.length ≤ 5 then
    some { centers := (ds.map fun p => ((p.1.val : ℚ), (p.2.1.val : ℚ), (p.2.2.val : ℚ)))
             ++ List.replicate (5 - ds.length) (0, 0, 0)
           labels := pixels.map fun p => ds.indexOf p }
  else none

/-- A token of an EXIF rational value, as consumed by `parse_fraction`
(`metadata.py` lines 221-227): either an `"a/b"` fraction or a decimal
literal (string tokenization and Python float-literal parsing are
abstracted; the token carries the parsed numeric content). -/
inductive ExifToken
  | frac (a b : ℚ)
  | lit (q : ℚ)
deriving DecidableEq

/-- The error taxonomy relevant to metadata parsing (§7). -/
inductive MetadataError
  | malformedFraction
  | invalidCoordinateFormat
deriving DecidableEq

/-- `parse_fraction` (`metadata.py` lines 221-227): `a/b` divides and
fails on a zero denominator (`ZeroDivisionError`, the spec's
`MalformedFraction`), a literal returns its value. -/
def parse_fraction : ExifToken → Except MetadataError ℚ
  | .frac a b => if b = 0 then .error .malformedFraction else .ok (a / b)
  | .lit q => .ok q

/-- `convert_gps_to_decimal` (`metadata.py` lines 187-218): requires
exactly 3 parts (else `ValueError`, the spec's `InvalidCoordinateFormat`),
parses each part as a fraction, computes
`degrees + minutes/60 + seconds/3600`, negates for a `"S"` or `"W"`
reference, rounds to 6 decimal places. -/
def convert_gps_to_decimal (parts : List ExifToken) (ref : String) : Except MetadataError ℚ :=
  match parts with
  | [d, m, s] => do
    let degrees ← parse_fraction d
    let minutes ← parse_fraction m
    let seconds ← parse_fraction s
    let dec := degrees + minutes / 60 + seconds / 3600
    let dec := if ref = "S" ∨ ref = "W" then -dec else dec
    pure (pyRound 6 dec)
  | _ => .error .invalidCoordinateFormat

/-- The black pixel. -/
def blackPx : RGB := (0, 0, 0)

/-- The white pixel. -/
def whitePx : RGB := (255, 255, 255)

/-- A dark gray pixel of luminance 16. -/
def gray16Px : RGB := (16, 16, 16)

/-- The mid-gray pixel. -/
def gray128Px : RGB := (128, 128, 128)

/-- A 1-pixel all-black buffer (equal channel means, all 0). -/
def bufAllBlack : PixelBuffer := [blackPx]

/-- A 10×10 buffer with exactly 100 dark pixels (luminances 0 and 16,
50 each): their population standard deviation is exactly 8. -/
def bufDark100 : PixelBuffer := List.replicate 50 blackPx ++ List.replicate 50 gray16Px

/-- A 200-pixel buffer with 200 dark pixels (luminances 0 and 16, 100
each): more than 100 dark pixels, of standard deviation exactly 8. -/
def bufDark200 : PixelBuffer := List.replicate 100 blackPx ++ List.replicate 100 gray16Px

/-- An all-zero 32×32 luma plane: it contains one full 32×32 block, of
variance 0. -/
def plane32 : Plane := List.replicate 32 (List.replicate 32 0)

/-- An all-zero 33×33 luma plane. -/
def plane33 : Plane := List.replicate 33 (List.replicate 33 0)

/-- A 4-pixel all-black buffer: degenerate clustering input. -/
def img4Black : PixelBuffer := List.replicate 4 blackPx

/-- A buffer of 5 distinct colors: every cluster of `kmeansExact` is
nonempty. -/
def img5 : PixelBuffer := [(0, 0, 0), (255, 255, 255), (255, 0, 0), (0, 255, 0), (0, 0, 255)]

/-- A 10001-pixel buffer (10000 black then one white): larger than the
10,000-pixel sampling threshold. -/
def bigImg : PixelBuffer := List.replicate 10000 blackPx ++ [whitePx]

/-- One possible unseeded sampling draw on `bigImg`: indices 0..9999
(10000 distinct valid indices — misses the white pixel). -/
def draw1 : List ℕ := List.range 10000

/-- Another possible draw: index 10000 then 0..9998 (10000 distinct valid
indices — includes the white pixel). -/
def draw2 : List ℕ := 10000 :: List.range 9999

theorem roundHalfEven_ge (q : ℚ) : q - 1/2 ≤ (roundHalfEven q : ℚ) := by
  have h1 := Int.floor_le q
  have h2 := Int.lt_floor_add_one q
  simp only [roundHalfEven]
  split_ifs with ha hb hc <;> push_cast <;> linarith

theorem roundHalfEven_le (q : ℚ) : (roundHalfEven q : ℚ) ≤ q + 1/2 := by
  have h1 := Int.floor_le q
  have h2 := Int.lt_floor_add_one q
  simp only [roundHalfEven]
  split_ifs with ha hb hc <;> push_cast <;> linarith

theorem le_roundHalfEven_int {k : ℤ} {q : ℚ} (h : (k : ℚ) ≤ q) : k ≤ roundHalfEven q := by
  have h1 := roundHalfEven_ge q
  have h3 : ((k : ℤ) : ℚ) - 1 < ((roundHalfEven q : ℤ) : ℚ) := by push_cast; linarith
  have h4 : (k : ℤ) - 1 < roundHalfEven q := by exact_mod_cast h3
  omega

theorem roundHalfEven_le_int {k : ℤ} {q : ℚ} (h : q ≤ (k : ℚ)) : roundHalfEven q ≤ k := by
  have h1 := roundHalfEven_le q
  have h3 : ((roundHalfEven q : ℤ) : ℚ) < ((k : ℤ) : ℚ) + 1 := by push_cast; linarith
  have h4 : roundHalfEven q < (k : ℤ) + 1 := by exact_mod_cast h3
  omega

theorem pyRound_ge {n : ℕ} {q : ℚ} {k : ℤ} (h : (k : ℚ) / 10 ^ n ≤ q) :
    (k : ℚ) / 10 ^ n ≤ pyRound n q := by
  have hp : (0 : ℚ) < 10 ^ n := by positivity
  have hk : (k : ℚ) ≤ q * 10 ^ n := by rw [div_le_iff hp] at h; exact h
  have h2 := le_roundHalfEven_int hk
  unfold pyRound
  rw [div_le_div_iff_of_pos_right hp]
  exact_mod_cast h2

theorem pyRound_le {n : ℕ} {q : ℚ} {k : ℤ} (h : q ≤ (k : ℚ) / 10 ^ n) :
    pyRound n q ≤ (k : ℚ) / 10 ^ n := by
  have hp : (0 : ℚ) < 10 ^ n := by positivity
  have hk : q * 10 ^ n ≤ (k : ℚ) := by rw [le_div_iff hp] at h; exact h
  have h2 := roundHalfEven_le_int hk
  unfold pyRound
  rw [div_le_div_iff_of_pos_right hp]
  exact_mod_cast h2

theorem abs_pyRound_sub_le (n : ℕ) (q : ℚ) : |pyRound n q - q| ≤ 1 / (2 * 10 ^ n) := by
  have hp : (0 : ℚ) < 10 ^ n := by positivity
  have h1 := roundHalfEven_ge (q * 10 ^ n)
  have h2 := roundHalfEven_le (q * 10 ^ n)
  rw [abs_le]
  unfold pyRound
  constructor
  · have : (q * 10 ^ n - 1/2) / 10 ^ n ≤ (roundHalfEven (q * 10 ^ n) : ℚ) / 10 ^ n :=
      div_le_div_of_nonneg_right h1 hp.le
    calc -(1 / (2 * 10 ^ n)) = (q * 10 ^ n - 1/2) / 10 ^ n - q := by field_simp; ring
    _ ≤ (roundHalfEven (q * 10 ^ n) : ℚ) / 10 ^ n - q := by linarith
  · have : (roundHalfEven (q * 10 ^ n) : ℚ) / 10 ^ n ≤ (q * 10 ^ n + 1/2) / 10 ^ n :=
      div_le_div_of_nonneg_right h2 hp.le
    calc (roundHalfEven (q * 10 ^ n) : ℚ) / 10 ^ n - q ≤ (q * 10 ^ n + 1/2) / 10 ^ n - q := by
          linarith
    _ = 1 / (2 * 10 ^ n) := by field_simp; ring

theorem sum_count_range {vals : List ℕ} {n : ℕ} (h : ∀ v ∈ vals, v < n) :
    (∑ v ∈ Finset.range n, vals.count v) = vals.length := by
  induction vals with
  | nil => simp
  | cons a l ih =>
    have ha : a < n := h a (List.mem_cons_self a l)
    have ih2 := ih fun v hv => h v (List.mem_cons_of_mem a hv)
    have hsplit : ∀ v : ℕ, (a :: l).count v = l.count v + if v = a then 1 else 0 := by
      intro v
      rw [List.count_cons]
      by_cases hva : v = a
      · simp [hva]
      · have hav : ¬(a = v) := fun hh => hva hh.symm
        simp [hva, hav]
    calc (∑ v ∈ Finset.range n, (a :: l).count v)
        = ∑ v ∈ Finset.range n, (l.count v + if v = a then 1 else 0) :=
          Finset.sum_congr rfl fun v _ => hsplit v
      _ = (∑ v ∈ Finset.range n, l.count v) + ∑ v ∈ Finset.range n, (if v = a then 1 else 0) :=
          Finset.sum_add_distrib
      _ = l.length + 1 := by
          rw [ih2, Finset.sum_ite_eq' (Finset.range n) a fun _ => 1]
          simp [ha]
      _ = (a :: l).length := by simp

theorem sum_hist_channel {vals : List ℕ} (h : ∀ v ∈ vals, v < 256) :
    (hist_channel vals).sum = vals.length := by
  have hb : ((List.range 256).map fun v => vals.count v).sum
      = ∑ v ∈ Finset.range 256, vals.count v := rfl
  rw [hist_channel, hb, sum_count_range h]

theorem lum_eq_div (p : RGB) :
    lum p = (299 * p.1.val + 587 * p.2.1.val + 114 * p.2.2.val) / 1000 := by
  have hq : lumQ p = ((299 * p.1.val + 587 * p.2.1.val + 114 * p.2.2.val : ℕ) : ℚ)
      / ((1000 : ℕ) : ℚ) := by
    unfold lumQ
    push_cast
    ring
  rw [lum, Int.floor_toNat, hq, Nat.floor_div_nat, Nat.floor_natCast]

theorem lum_lt_256 (p : RGB) : lum p < 256 := by
  rw [lum_eq_div]
  have h1 : p.1.val ≤ 255 := Fin.is_le p.1
  have h2 : p.2.1.val ≤ 255 := Fin.is_le p.2.1
  have h3 : p.2.2.val ≤ 255 := Fin.is_le p.2.2
  omega

/-- Claim C2: for every pixel buffer, `calculate_histogram` returns four
256-bin sequences of counts (naturals, hence non-negative) whose red,
green, blue and luminance bins each sum to the pixel count, and the
binned luminance of each pixel is `0.299R + 0.587G + 0.114B` truncated
(floor, not rounded) to an integer. -/
theorem calculate_histogram_spec (B : PixelBuffer) :
    (calculate_histogram B).red.length = 256 ∧
    (calculate_histogram B).green.length = 256 ∧
    (calculate_histogram B).blue.length = 256 ∧
    (calculate_histogram B).luminance.length = 256 ∧
    (calculate_histogram B).red.sum = B.length ∧
    (calculate_histogram B).green.sum = B.length ∧
    (calculate_histogram B).blue.sum = B.length ∧
    (calculate_histogram B).luminance.sum = B.length ∧
    ∀ p : RGB, lum p = (299 * p.1.val + 587 * p.2.1.val + 114 * p.2.2.val) / 1000 := by
  have key : ∀ f : RGB → ℕ, (∀ p : RGB, f p < 256) →
      (hist_channel (B.map f)).sum = B.length := by
    intro f hf
    have h : ∀ v ∈ B.map f, v < 256 := by
      intro v hv
      obtain ⟨p, _, hp⟩ := List.mem_map.mp hv
      exact hp ▸ hf p
    rw [sum_hist_channel h, List.length_map]
  exact ⟨by simp [calculate_histogram, hist_channel],
    by simp [calculate_histogram, hist_channel],
    by simp [calculate_histogram, hist_channel],
    by simp [calculate_histogram, hist_channel],
    key _ fun p => p.1.isLt, key _ fun p => p.2.1.isLt,
    key _ fun p => p.2.2.isLt, key lum lum_lt_256, lum_eq_div⟩

theorem countP_bands (l : List ℕ) :
    l.countP (fun v => decide (v ≤ 64)) +
    l.countP (fun v => decide (64 < v) && decide (v < 193)) +
    l.countP (fun v => decide (193 ≤ v)) = l.length := by
  induction l with
  | nil => simp
  | cons a l ih =>
    simp only [List.countP_cons, List.length_cons, Bool.and_eq_true, decide_eq_true_eq]
    split_ifs <;> omega

/-- Claim C3: the three tonal bands of `analyze_tonal_properties` are
mutually exclusive and exhaustive: shadows are exactly the pixels of
luminance at most 64, midtones exactly those with luminance in 65..192,
highlights exactly those with luminance at least 193, and the three
counts always sum to the pixel count. -/
theorem tonal_bands_spec (B : PixelBuffer) :
    shadows_pixels B + midtones_pixels B + highlights_pixels B = B.length ∧
    shadows_pixels B = (lum_list B).countP (fun v => decide (v ≤ 64)) ∧
    midtones_pixels B = (lum_list B).countP (fun v => decide (65 ≤ v) && decide (v ≤ 192)) ∧
    highlights_pixels B = (lum_list B).countP (fun v => decide (193 ≤ v)) ∧
    ∀ v : ℕ, v ≤ 255 →
      (v ≤ 64 ∧ ¬(65 ≤ v ∧ v ≤ 192) ∧ ¬193 ≤ v) ∨
      ((65 ≤ v ∧ v ≤ 192) ∧ ¬v ≤ 64 ∧ ¬193 ≤ v) ∨
      (193 ≤ v ∧ ¬v ≤ 64 ∧ ¬(65 ≤ v ∧ v ≤ 192)) := by
  refine ⟨?_, rfl, ?_, rfl, fun v _ => by omega⟩
  · have := countP_bands (lum_list B)
    simpa [shadows_pixels, midtones_pixels, highlights_pixels, lum_list] using this
  · unfold midtones_pixels
    congr 1
    funext v
    rw [← Bool.decide_and, ← Bool.decide_and, decide_eq_decide]
    omega

/-- Claim C5: `parse_fraction` returns `a/b` for a fraction token with
nonzero denominator, the value itself for a decimal-literal token, and
fails with `MalformedFraction` on a zero denominator. -/
theorem parse_fraction_spec :
    (∀ a b : ℚ, b ≠ 0 → parse_fraction (.frac a b) = .ok (a / b)) ∧
    (∀ q : ℚ, parse_fraction (.lit q) = .ok q) ∧
    (∀ a : ℚ, parse_fraction (.frac a 0) = .error .malformedFraction) := by
  refine ⟨fun a b hb => ?_, fun q => rfl, fun a => ?_⟩
  · simp [parse_fraction, hb]
  · simp [parse_fraction]

/-- Witness for C5 at the spec's own examples: `"1/2"` parses to 0.5,
`"3"` to 3.0, and `"1/0"` fails with `MalformedFraction`. -/
theorem parse_fraction_spec_witness :
    parse_fraction (.frac 1 2) = .ok (0.5 : ℚ) ∧
    parse_fraction (.lit 3) = .ok (3 : ℚ) ∧
    parse_fraction (.frac 1 0) = .error .malformedFraction := by
  refine ⟨?_, parse_fraction_spec.2.1 3, parse_fraction_spec.2.2 1⟩
  rw [parse_fraction_spec.1 1 2 (by norm_num)]
  norm_num

/-- Claim C4: `convert_gps_to_decimal` on a 3-token DMS sequence whose
tokens parse to `d`, `m`, `s` returns `d + m/60 + s/3600`, negated for a
`"S"`/`"W"` reference, rounded (ties to even) to 6 decimal places; and
any sequence that does not have exactly 3 elements fails with
`InvalidCoordinateFormat`. -/
theorem convert_gps_to_decimal_spec :
    (∀ (t1 t2 t3 : ExifToken) (v1 v2 v3 : ℚ) (ref : String),
      parse_fraction t1 = .ok v1 → parse_fraction t2 = .ok v2 → parse_fraction t3 = .ok v3 →
      convert_gps_to_decimal [t1, t2, t3] ref =
        .ok (pyRound 6 (if ref = "S" ∨ ref = "W" then -(v1 + v2 / 60 + v3 / 3600)
          else v1 + v2 / 60 + v3 / 3600))) ∧
    (∀ (parts : List ExifToken) (ref : String), parts.length ≠ 3 →
      convert_gps_to_decimal parts ref = .error .invalidCoordinateFormat) := by
  constructor
  · intro t1 t2 t3 v1 v2 v3 ref h1 h2 h3
    simp only [convert_gps_to_decimal, h1, h2, h3, bind, Except.bind, pure, Except.pure]
  · intro parts ref h
    rcases parts with _ | ⟨a, _ | ⟨b, _ | ⟨c, _ | ⟨d, rest⟩⟩⟩⟩ <;>
      first
        | rfl
        | (exfalso; exact h rfl)

/-- Witness for C4 at the spec's example: DMS (41, 53, 23) with reference
"N" gives 41.889722, and reference "S" negates it. -/
theorem convert_gps_to_decimal_spec_witness :
    convert_gps_to_decimal [.lit 41, .lit 53, .lit 23] "N" = .ok (41.889722 : ℚ) ∧
    convert_gps_to_decimal [.lit 41, .lit 53, .lit 23] "S" = .ok (-41.889722 : ℚ) := by
  have hN := convert_gps_to_decimal_spec.1 (.lit 41) (.lit 53) (.lit 23) 41 53 23 "N"
    rfl rfl rfl
  have hS := convert_gps_to_decimal_spec.1 (.lit 41) (.lit 53) (.lit 23) 41 53 23 "S"
    rfl rfl rfl
  have hfl : ⌊((41 : ℚ) + 53 / 60 + 23 / 3600) * 10 ^ 6⌋ = 41889722 := by
    rw [Int.floor_eq_iff]
    norm_num
  have hflneg : ⌊(-((41 : ℚ) + 53 / 60 + 23 / 3600)) * 10 ^ 6⌋ = -41889723 := by
    rw [Int.floor_eq_iff]
    norm_num
  have hcN : ¬("N" = "S" ∨ "N" = "W") := by decide
  have hcS : ("S" = "S" ∨ "S" = "W") := Or.inl rfl
  rw [if_neg hcN] at hN
  rw [if_pos hcS] at hS
  constructor
  · rw [hN]
    have hv : pyRound 6 ((41 : ℚ) + 53 / 60 + 23 / 3600) = 41.889722 := by
      simp only [pyRound, roundHalfEven]
      rw [hfl]
      norm_num
    rw [hv]
  · rw [hS]
    have hv : pyRound 6 (-((41 : ℚ) + 53 / 60 + 23 / 3600)) = -41.889722 := by
      simp only [pyRound, roundHalfEven]
      rw [hflneg]
      norm_num
    rw [hv]

theorem sev_round_bounds {x : ℚ} (h1 : 1/20 ≤ x) (h2 : x ≤ 1) :
    1/20 ≤ pyRound 3 x ∧ pyRound 3 x ≤ 1 := by
  have ha : ((50 : ℤ) : ℚ) / 10 ^ 3 ≤ x := by push_cast; norm_num; linarith
  have hb : x ≤ ((1000 : ℤ) : ℚ) / 10 ^ 3 := by push_cast; norm_num; linarith
  have h3 := pyRound_ge ha
  have h4 := pyRound_le hb
  push_cast at h3 h4
  norm_num at h3 h4
  exact ⟨h3, h4⟩

/-- Claim C10: the fields of the `detect_color_cast` result are mutually
consistent — either no cast (`detected = false`, direction `"none"`,
severity exactly 0) or a cast (`detected = true`, a non-`"none"`
direction, and severity between the 5% detection threshold and 1). -/
theorem detect_color_cast_consistent (r g b : ℚ) :
    ((detect_color_cast r g b).detected = false ∧
      (detect_color_cast r g b).direction = "none" ∧
      (detect_color_cast r g b).severity = 0) ∨
    ((detect_color_cast r g b).detected = true ∧
      (detect_color_cast r g b).direction ≠ "none" ∧
      1/20 ≤ (detect_color_cast r g b).severity ∧
      (detect_color_cast r g b).severity ≤ 1) := by
  set A : ℚ := if (r + g + b) / 3 < 1 then 1 else (r + g + b) / 3 with hA
  set rd : ℚ := (r - A) / A with hrd
  set gd : ℚ := (g - A) / A with hgd
  set bd : ℚ := (b - A) / A with hbd
  by_cases h1 : max |rd| (max |gd| |bd|) < 0.05
  · left
    have heq : detect_color_cast r g b = { detected := false, direction := "none", severity := 0 } := by
      simp only [detect_color_cast]
      rw [← hA, ← hrd, ← hgd, ← hbd, if_pos h1]
    rw [heq]
    exact ⟨rfl, rfl, rfl⟩
  · right
    have h05 : (0.05 : ℚ) ≤ max |rd| (max |gd| |bd|) := not_lt.mp h1
    by_cases h2 : |gd| < |rd| ∧ |bd| < |rd|
    · have heq : detect_color_cast r g b =
          ⟨true, (if 0 < rd then "red" else "cyan"), pyRound 3 (min |rd| 1)⟩ := by
        simp only [detect_color_cast]
        rw [← hA, ← hrd, ← hgd, ← hbd, if_neg h1, if_pos h2]
      have hmax : max |rd| (max |gd| |bd|) = |rd| :=
        max_eq_left (max_le h2.1.le h2.2.le)
      have hge : 1/20 ≤ |rd| := by rw [hmax] at h05; linarith
      have hs := sev_round_bounds (le_min hge (by norm_num)) (min_le_right |rd| 1)
      rw [heq]
      refine ⟨rfl, ?_, hs.1, hs.2⟩
      split_ifs <;> simp
    · by_cases h3 : |bd| < |gd|
      · have heq : detect_color_cast r g b =
            ⟨true, (if 0 < gd then "green" else "magenta"), pyRound 3 (min |gd| 1)⟩ := by
          simp only [detect_color_cast]
          rw [← hA, ← hrd, ← hgd, ← hbd, if_neg h1, if_neg h2, if_pos h3]
        have hrg : |rd| ≤ |gd| := by
          rcases not_and_or.mp h2 with h | h
          · exact not_lt.mp h
          · exact le_trans (not_lt.mp h) h3.le
        have hmax_le : max |rd| (max |gd| |bd|) ≤ |gd| :=
          max_le hrg (max_le le_rfl h3.le)
        have hge : 1/20 ≤ |gd| := by linarith
        have hs := sev_round_bounds (le_min hge (by norm_num)) (min_le_right |gd| 1)
        rw [heq]
        refine ⟨rfl, ?_, hs.1, hs.2⟩
        split_ifs <;> simp
      · have heq : detect_color_cast r g b =
            ⟨true, (if 0 < bd then "blue" else "yellow"), pyRound 3 (min |bd| 1)⟩ := by
          simp only [detect_color_cast]
          rw [← hA, ← hrd, ← hgd, ← hbd, if_neg h1, if_neg h2, if_neg h3]
        have hgb : |gd| ≤ |bd| := not_lt.mp h3
        have hrb : |rd| ≤ |bd| := by
          rcases not_and_or.mp h2 with h | h
          · exact le_trans (not_lt.mp h) hgb
          · exact not_lt.mp h
        have hmax_le : max |rd| (max |gd| |bd|) ≤ |bd| :=
          max_le hrb (max_le hgb le_rfl)
        have hge : 1/20 ≤ |bd| := by linarith
        have hs := sev_round_bounds (le_min hge (by norm_num)) (min_le_right |bd| 1)
        rw [heq]
        refine ⟨rfl, ?_, hs.1, hs.2⟩
        split_ifs <;> simp

theorem detect_color_cast_diag (m : ℚ) :
    (19/20 < m → detect_color_cast m m m = ⟨false, "none", 0⟩) ∧
    (m ≤ 19/20 → detect_color_cast m m m = ⟨true, "yellow", pyRound 3 (min (1 - m) 1)⟩) := by
  have h3 : (m + m + m) / 3 = m := by ring
  constructor
  · intro hm
    by_cases hlt : m < 1
    · simp only [detect_color_cast, h3, if_pos hlt, div_one, max_self,
        abs_of_nonpos (show m - 1 ≤ 0 by linarith)]
      rw [if_pos (show -(m - 1) < 0.05 by norm_num; linarith)]
    · simp only [detect_color_cast, h3, if_neg hlt, sub_self, zero_div, abs_zero, max_self]
      rw [if_pos (show (0 : ℚ) < 0.05 by norm_num)]
  · intro hm
    have hlt : m < 1 := by linarith
    simp only [detect_color_cast, h3, if_pos hlt, div_one, max_self,
      abs_of_nonpos (show m - 1 ≤ 0 by linarith)]
    rw [if_neg (show ¬(-(m - 1) < 0.05) by norm_num; linarith),
      if_neg (show ¬(-(m - 1) < -(m - 1) ∧ -(m - 1) < -(m - 1)) from fun h => lt_irrefl _ h.1),
      if_neg (lt_irrefl (-(m - 1))),
      if_neg (show ¬(0 < m - 1) by linarith), neg_sub]

/-- Counterexample to claim C6 as stated: the all-black 1-pixel buffer has
equal channel means (all 0), yet `detect_color_cast` reports a detected
yellow cast of severity 1, because the grand mean is floored at 1 and each
channel then deviates by -100% from it. -/
theorem detect_color_cast_neutral_counterexample :
    avg_r bufAllBlack = avg_g bufAllBlack ∧ avg_g bufAllBlack = avg_b bufAllBlack ∧
    detect_color_cast (avg_r bufAllBlack) (avg_g bufAllBlack) (avg_b bufAllBlack) =
      ⟨true, "yellow", 1⟩ := by
  have hr : avg_r bufAllBlack = 0 := by simp [avg_r, npMean, bufAllBlack, blackPx]
  have hg : avg_g bufAllBlack = 0 := by simp [avg_g, npMean, bufAllBlack, blackPx]
  have hb : avg_b bufAllBlack = 0 := by simp [avg_b, npMean, bufAllBlack, blackPx]
  refine ⟨hr.trans hg.symm, hg.trans hb.symm, ?_⟩
  rw [hr, hg, hb, (detect_color_cast_diag 0).2 (by norm_num)]
  have hp : pyRound 3 (min (1 - (0:ℚ)) 1) = 1 := by
    rw [show min (1 - (0:ℚ)) 1 = 1 by norm_num]
    simp only [pyRound, roundHalfEven]
    rw [show ⌊(1 : ℚ) * 10 ^ 3⌋ = 1000 by norm_num]
    norm_num
  rw [hp]

/-- Claim C6 amended: for a buffer with equal channel means `m`, no cast
is reported when `m` is within 5% of the floored average (in particular
whenever `m ≥ 1`, which holds for any non-near-black neutral buffer); but
when `m ≤ 0.95` the flooring of the grand mean at 1 makes every channel
deviate by at least the 5% threshold and a yellow cast of severity
`min(1-m, 1)` (rounded to 3 digits) is reported.  The deviation formula
`(channel - avg)/avg` with `avg` floored at 1 is as the claim states. -/
theorem detect_color_cast_neutral_amended (B : PixelBuffer)
    (hrg : avg_r B = avg_g B) (hgb : avg_g B = avg_b B) :
    (19/20 < avg_r B →
      detect_color_cast (avg_r B) (avg_g B) (avg_b B) = ⟨false, "none", 0⟩) ∧
    (avg_r B ≤ 19/20 →
      detect_color_cast (avg_r B) (avg_g B) (avg_b B) =
        ⟨true, "yellow", pyRound 3 (min (1 - avg_r B) 1)⟩) := by
  rw [← hrg] at hgb
  rw [← hgb, ← hrg]
  exact detect_color_cast_diag (avg_r B)

/-- Witness for C6 (amended) at the all-mid-gray 1-pixel buffer: equal
channel means of 128 yield no detected cast. -/
theorem detect_color_cast_neutral_amended_witness :
    detect_color_cast (avg_r [gray128Px]) (avg_g [gray128Px]) (avg_b [gray128Px]) =
      ⟨false, "none", 0⟩ := by
  have hr : avg_r [gray128Px] = 128 := by simp [avg_r, npMean, gray128Px, show ((128 : Fin 256) : ℕ) = 128 from rfl]
  have hg : avg_g [gray128Px] = 128 := by simp [avg_g, npMean, gray128Px, show ((128 : Fin 256) : ℕ) = 128 from rfl]
  have hb : avg_b [gray128Px] = 128 := by simp [avg_b, npMean, gray128Px, show ((128 : Fin 256) : ℕ) = 128 from rfl]
  exact (detect_color_cast_neutral_amended [gray128Px] (hr.trans hg.symm)
    (hg.trans hb.symm)).1 (by rw [hr]; norm_num)

theorem lum_blackPx : lum blackPx = 0 := by
  rw [lum_eq_div]
  rfl

theorem lum_gray16Px : lum gray16Px = 16 := by
  rw [lum_eq_div]
  rfl

theorem ratSqrt_64 : ratSqrt 64 = 8 := by
  have h1 : Nat.sqrt 64 = 8 := by rw [show (64 : ℕ) = 8 * 8 from rfl, Nat.sqrt_eq]
  unfold ratSqrt
  rw [show ((64 : ℚ)).num = 64 by simp, show ((64 : ℚ)).den = 1 by simp,
    show ((64 : ℤ)).toNat = 64 from rfl, h1, Nat.sqrt_one]
  norm_num

theorem dark_replicate_facts (n : ℕ) (hn : 0 < n) :
    dark_pixels (List.replicate n blackPx ++ List.replicate n gray16Px) =
      List.replicate n 0 ++ List.replicate n 16 ∧
    npStd ratSqrt ((dark_pixels (List.replicate n blackPx ++ List.replicate n gray16Px)).map
      fun v : ℕ => (v : ℚ)) = 8 := by
  have hn0 : (n : ℚ) ≠ 0 := Nat.cast_ne_zero.mpr hn.ne'
  have hll : lum_list (List.replicate n blackPx ++ List.replicate n gray16Px) =
      List.replicate n 0 ++ List.replicate n 16 := by
    unfold lum_list
    rw [List.map_append, List.map_replicate, List.map_replicate, lum_blackPx, lum_gray16Px]
  have hdark : dark_pixels (List.replicate n blackPx ++ List.replicate n gray16Px) =
      List.replicate n 0 ++ List.replicate n 16 := by
    unfold dark_pixels
    rw [hll, List.filter_append, List.filter_replicate, List.filter_replicate]
    norm_num
  refine ⟨hdark, ?_⟩
  rw [hdark]
  have hmap : List.map (fun v : ℕ => (v : ℚ)) (List.replicate n 0 ++ List.replicate n 16) =
      List.replicate n (0 : ℚ) ++ List.replicate n 16 := by
    rw [List.map_append, List.map_replicate, List.map_replicate]
    norm_num
  rw [hmap]
  have hlen : (List.replicate n (0 : ℚ) ++ List.replicate n 16).length = 2 * n := by
    simp [List.length_append]
    omega
  have hmean : npMean (List.replicate n (0 : ℚ) ++ List.replicate n 16) = 8 := by
    unfold npMean
    rw [hlen, List.sum_append, List.sum_replicate, List.sum_replicate, smul_zero,
      nsmul_eq_mul]
    push_cast
    field_simp
    ring
  have hsq : List.map (fun x : ℚ => (x - 8) ^ 2) (List.replicate n (0 : ℚ) ++ List.replicate n 16) =
      List.replicate n (64 : ℚ) ++ List.replicate n 64 := by
    rw [List.map_append, List.map_replicate, List.map_replicate]
    norm_num
  have hvar : npVar (List.replicate n (0 : ℚ) ++ List.replicate n 16) = 64 := by
    unfold npVar
    rw [hmean, hsq, hlen, List.sum_append, List.sum_replicate, nsmul_eq_mul]
    push_cast
    field_simp
    ring
  unfold npStd
  rw [hvar]
  exact ratSqrt_64

/-- Counterexample to claim C7 as stated: `bufDark100` has exactly 100
pixels of luminance below 32, whose standard deviation is 8 ≥ 1; the
claim's noise-floor rule ("1.0 exactly when fewer than 100 dark pixels
exist or std < 1") yields 8, but the code requires strictly more than
100 dark pixels and yields 1. -/
theorem noise_floor_counterexample :
    (dark_pixels bufDark100).length = 100 ∧
    noise_floor ratSqrt bufDark100 = 1 ∧
    spec_noise_floor ratSqrt bufDark100 = 8 := by
  obtain ⟨hdark, hstd⟩ := dark_replicate_facts 50 (by norm_num)
  have hlen : (dark_pixels bufDark100).length = 100 := by
    rw [show bufDark100 = List.replicate 50 blackPx ++ List.replicate 50 gray16Px from rfl,
      hdark]
    simp
  refine ⟨hlen, ?_, ?_⟩
  · unfold noise_floor
    rw [if_neg (by rw [hlen]; norm_num)]
  · unfold spec_noise_floor
    have hstd100 : npStd ratSqrt ((dark_pixels bufDark100).map fun v : ℕ => (v : ℚ)) = 8 := hstd
    rw [hstd100, if_neg (by rw [hlen]; norm_num)]

theorem sorted_lum_length (B : PixelBuffer) : (sorted_lum B).length = B.length := by
  unfold sorted_lum
  rw [(List.mergeSort_perm (lum_list B) _).length_eq]
  unfold lum_list
  exact List.length_map B lum

/-- Claim C7 amended: the usable-range bounds are the sorted luminances
at indices `⌊0.02·n⌋` and `⌊0.98·n⌋`; the noise floor is 1 exactly when
there are 100 *or fewer* dark pixels (the code requires strictly more
than 100, not "at least 100" as the claim put it) or the computed
standard deviation is at most 1, and otherwise equals that standard
deviation; the stops are `log2(usable_range / noise_floor)` clamped to
`[0, 20]`, for any collaborator `sqrt`/`log2` primitives. -/
theorem dynamic_range_spec (sqrt log2 : ℚ → ℚ) (B : PixelBuffer) (hB : 1 ≤ B.length) :
    low_val B = ((sorted_lum B).getD (B.length * 2 / 100) 0 : ℕ) ∧
    high_val B = ((sorted_lum B).getD (B.length * 98 / 100) 0 : ℕ) ∧
    (noise_floor sqrt B = 1 ↔
      ((dark_pixels B).length ≤ 100 ∨
        npStd sqrt ((dark_pixels B).map fun v : ℕ => (v : ℚ)) ≤ 1)) ∧
    (100 < (dark_pixels B).length →
      1 ≤ npStd sqrt ((dark_pixels B).map fun v : ℕ => (v : ℚ)) →
      noise_floor sqrt B = npStd sqrt ((dark_pixels B).map fun v : ℕ => (v : ℚ))) ∧
    dynamic_range_stops sqrt log2 B =
      max 0 (min (log2 (max (high_val B - low_val B) 1 / noise_floor sqrt B)) 20) := by
  have hguard : p98_idx B < (sorted_lum B).length := by
    rw [sorted_lum_length]
    unfold p98_idx
    rw [Nat.div_lt_iff_lt_mul (by norm_num)]
    nlinarith
  refine ⟨?_, ?_, ?_, ?_, ?_⟩
  · unfold low_val
    rw [if_pos hguard]
    rfl
  · unfold high_val
    rw [if_pos hguard]
    rfl
  · unfold noise_floor
    by_cases h : 100 < (dark_pixels B).length
    · rw [if_pos h]
      constructor
      · intro hmax
        exact Or.inr (max_eq_right_iff.mp hmax)
      · intro hor
        rcases hor with h1 | h1
        · omega
        · exact max_eq_right h1
    · rw [if_neg h]
      simp [Nat.not_lt.mp h]
  · intro h1 h2
    unfold noise_floor
    rw [if_pos h1]
    exact max_eq_left h2
  · unfold dynamic_range_stops usable_range
    rfl

/-- Witness for C7 (amended) at `bufDark200` (200 dark pixels of standard
deviation 8) with the concrete `ratSqrt` primitive and the constant-zero
logarithm: with strictly more than 100 dark pixels and std ≥ 1 the noise
floor equals the standard deviation. -/
theorem dynamic_range_spec_witness :
    noise_floor ratSqrt bufDark200 =
      npStd ratSqrt ((dark_pixels bufDark200).map fun v : ℕ => (v : ℚ)) := by
  obtain ⟨hdark, hstd⟩ := dark_replicate_facts 100 (by norm_num)
  have hdark200 : dark_pixels bufDark200 = List.replicate 100 0 ++ List.replicate 100 16 :=
    hdark
  have hstd200 : npStd ratSqrt ((dark_pixels bufDark200).map fun v : ℕ => (v : ℚ)) = 8 := hstd
  have hlen : 1 ≤ bufDark200.length := by
    unfold bufDark200
    rw [List.length_append, List.length_replicate, List.length_replicate]
    norm_num
  exact (dynamic_range_spec ratSqrt (fun _ => 0) bufDark200 hlen).2.2.2.1
    (by rw [hdark200, List.length_append, List.length_replicate, List.length_replicate]
        norm_num)
    (by rw [hstd200]; norm_num)

theorem flatten_replicate_replicate (n m : ℕ) (a : ℚ) :
    (List.replicate n (List.replicate m a)).flatten = List.replicate (n * m) a := by
  induction n with
  | zero => simp
  | succ k ih =>
    rw [List.replicate_succ, List.flatten_cons, ih, Nat.succ_mul, Nat.add_comm,
      List.replicate_add]

theorem flatMap_replicate (n : ℕ) (a : List ℕ) (f : List ℕ → List ℚ) :
    (List.replicate n a).flatMap f = (List.replicate n (f a)).flatten := by
  induction n with
  | zero => simp
  | succ k ih =>
    rw [List.replicate_succ, List.replicate_succ, List.flatMap_cons, List.flatten_cons, ih]

theorem grayBlock_replicate_zero (n m i j : ℕ) :
    grayBlock (List.replicate n (List.replicate m 0)) i j =
      List.replicate (min 32 (n - i) * min 32 (m - j)) (0 : ℚ) := by
  unfold grayBlock
  rw [List.drop_replicate, List.take_replicate, flatMap_replicate,
    List.drop_replicate, List.take_replicate, List.map_replicate,
    flatten_replicate_replicate]
  norm_num

theorem npVar_replicate_zero (k : ℕ) : npVar (List.replicate k (0 : ℚ)) = 0 := by
  unfold npVar npMean
  rw [List.sum_replicate, smul_zero, List.length_replicate, zero_div, List.map_replicate]
  norm_num

/-- Counterexample to claim C8 as stated: the all-zero 32×32 luma plane
contains one full 32×32 block of variance 0 < 100, yet `estimate_noise`
records no flat-block deviation at all (its scan `range(0, h-32, 32)`
skips blocks flush with the bottom/right edge), so the median path is
not taken and the median-filter fallback runs instead. -/
theorem estimate_noise_counterexample :
    32 ≤ plane32.length ∧ 32 ≤ planeW plane32 ∧
    npVar (grayBlock plane32 0 0) < 100 ∧
    noise_estimates ratSqrt plane32 = [] := by
  have hlen : plane32.length = 32 := by
    unfold plane32
    exact List.length_replicate 32 _
  have hw : planeW plane32 = 32 := by
    unfold planeW plane32
    rw [show (List.replicate 32 (List.replicate 32 (0:ℕ))).headD [] = List.replicate 32 0
      from rfl]
    exact List.length_replicate 32 _
  refine ⟨by omega, by omega, ?_, ?_⟩
  · rw [show plane32 = List.replicate 32 (List.replicate 32 0) from rfl,
      grayBlock_replicate_zero, npVar_replicate_zero]
    norm_num
  · unfold noise_estimates
    rw [hlen, show block_starts 32 = [] from by decide]
    rfl

/-- Claim C8 amended: `estimate_noise` takes the median of the standard
deviations of the scanned low-variance blocks when any exist and the
median-filter-residual fallback otherwise; the scanned blocks are those
starting at multiples of 32 with `start + 32 < dimension` — i.e. full
blocks *not* flush with the bottom or right edge.  Any such block of
variance below 100 forces the flat-block median path. -/
theorem estimate_noise_spec (sqrt : ℚ → ℚ) (medianBlur : Plane → Plane) (g : Plane) :
    (estimate_noise sqrt medianBlur g =
      if noise_estimates sqrt g = [] then npStd sqrt (grayResidual g (medianBlur g))
      else npMedian (noise_estimates sqrt g)) ∧
    (∀ i j : ℕ, i % 32 = 0 → j % 32 = 0 → i + 32 < g.length → j + 32 < planeW g →
      npVar (grayBlock g i j) < 100 → noise_estimates sqrt g ≠ []) := by
  refine ⟨rfl, ?_⟩
  intro i j hi32 hj32 hih hjw hvar
  have hi : i ∈ block_starts g.length := by
    unfold block_starts
    rw [List.mem_filter, List.mem_range]
    refine ⟨by omega, ?_⟩
    rw [Bool.and_eq_true, decide_eq_true_eq, decide_eq_true_eq]
    omega
  have hj : j ∈ block_starts (planeW g) := by
    unfold block_starts
    rw [List.mem_filter, List.mem_range]
    refine ⟨by omega, ?_⟩
    rw [Bool.and_eq_true, decide_eq_true_eq, decide_eq_true_eq]
    omega
  have hmem : sqrt (npVar (grayBlock g i j)) ∈ noise_estimates sqrt g := by
    unfold noise_estimates
    rw [List.mem_flatMap]
    refine ⟨i, hi, ?_⟩
    rw [List.mem_filterMap]
    exact ⟨j, hj, by rw [if_pos hvar]⟩
  exact List.ne_nil_of_mem hmem

/-- Witness for C8 (amended) at the all-zero 33×33 plane: its top-left
32×32 block is scanned (`0 + 32 < 33`) and flat, so the flat-block list
is nonempty and the median path is taken. -/
theorem estimate_noise_spec_witness : noise_estimates ratSqrt plane33 ≠ [] := by
  have hlen : plane33.length = 33 := by
    unfold plane33
    exact List.length_replicate 33 _
  have hw : planeW plane33 = 33 := by
    unfold planeW plane33
    rw [show (List.replicate 33 (List.replicate 33 (0:ℕ))).headD [] = List.replicate 33 0
      from rfl]
    exact List.length_replicate 33 _
  refine (estimate_noise_spec ratSqrt (fun p => p) plane33).2 0 0 rfl rfl
    (by omega) (by omega) ?_
  rw [show plane33 = List.replicate 33 (List.replicate 33 0) from rfl,
    grayBlock_replicate_zero, npVar_replicate_zero]
  norm_num

theorem dedup_replicate {α : Type} [DecidableEq α] (n : ℕ) (hn : 0 < n) (a : α) :
    (List.replicate n a).dedup = [a] := by
  induction n with
  | zero => omega
  | succ k ih =>
    rw [List.replicate_succ]
    rcases Nat.eq_zero_or_pos k with hk | hk
    · subst hk
      simp
    · rw [List.dedup_cons_of_mem (by rw [List.mem_replicate]; exact ⟨hk.ne', rfl⟩)]
      exact ih hk

theorem edc_some (K : PixelBuffer → Option KMeansResult) (img : PixelBuffer) (idx : List ℕ)
    (r : KMeansResult) (h : K (sampled_pixels img idx) = some r) :
    extract_dominant_colors K img idx =
      ((r.centers.zip ((np_unique r.labels).map fun v => r.labels.count v)).map
        (mk_color_entry r.labels.length)).mergeSort
        fun a b => decide (b.percentage ≤ a.percentage) := by
  simp only [extract_dominant_colors]
  rw [h]

theorem edc_none (K : PixelBuffer → Option KMeansResult) (img : PixelBuffer) (idx : List ℕ)
    (h : K (sampled_pixels img idx) = none) :
    extract_dominant_colors K img idx = [fallback_entry (sampled_pixels img idx)] := by
  simp only [extract_dominant_colors]
  rw [h]

theorem np_unique_perm (l : List ℕ) : (np_unique l).Perm l.dedup :=
  List.mergeSort_perm l.dedup _

theorem np_unique_length (l : List ℕ) : (np_unique l).length = l.dedup.length :=
  (np_unique_perm l).length_eq

theorem edc_length (K : PixelBuffer → Option KMeansResult) (img : PixelBuffer) (idx : List ℕ)
    (r : KMeansResult) (h : K (sampled_pixels img idx) = some r) :
    (extract_dominant_colors K img idx).length =
      min r.centers.length (np_unique r.labels).length := by
  rw [edc_some K img idx r h, (List.mergeSort_perm _ _).length_eq, List.length_map,
    List.length_zip, List.length_map]

theorem dedup_length_le (l : List ℕ) (n : ℕ) (h : ∀ v ∈ l, v < n) : l.dedup.length ≤ n := by
  have hsub : l.dedup.toFinset ⊆ Finset.range n := by
    intro v hv
    rw [List.mem_toFinset, List.mem_dedup] at hv
    exact Finset.mem_range.mpr (h v hv)
  calc l.dedup.length = l.dedup.toFinset.card :=
        (List.toFinset_card_of_nodup l.nodup_dedup).symm
    _ ≤ (Finset.range n).card := Finset.card_le_card hsub
    _ = n := Finset.card_range n

theorem dedup_length_eq (l : List ℕ) (n : ℕ) (h : ∀ v ∈ l, v < n) (hs : ∀ c, c < n → c ∈ l) :
    l.dedup.length = n := by
  have hsub : l.dedup.toFinset ⊆ Finset.range n := by
    intro v hv
    rw [List.mem_toFinset, List.mem_dedup] at hv
    exact Finset.mem_range.mpr (h v hv)
  have hsup : Finset.range n ⊆ l.dedup.toFinset := by
    intro c hc
    rw [List.mem_toFinset, List.mem_dedup]
    exact hs c (Finset.mem_range.mp hc)
  calc l.dedup.length = l.dedup.toFinset.card :=
        (List.toFinset_card_of_nodup l.nodup_dedup).symm
    _ = (Finset.range n).card := by rw [Finset.Subset.antisymm hsub hsup]
    _ = n := Finset.card_range n

theorem sum_counts_np_unique (l : List ℕ) :
    ((np_unique l).map fun v => l.count v).sum = l.length := by
  rw [((np_unique_perm l).map fun v => l.count v).sum_eq]
  exact List.sum_map_count_dedup_eq_length l

theorem map_snd_zip_of_le {α β γ : Type} (f : β → γ) :
    ∀ (l₁ : List α) (l₂ : List β), l₂.length ≤ l₁.length →
      (l₁.zip l₂).map (fun p => f p.2) = l₂.map f := by
  intro l₁ l₂
  induction l₂ generalizing l₁ with
  | nil => simp
  | cons b t ih =>
    cases l₁ with
    | nil => intro h; simp at h
    | cons a s =>
      intro h
      simp only [List.zip_cons_cons, List.map_cons]
      rw [ih s (by simpa using h)]

theorem sum_map_pyRound2_near (xs : List ℚ) :
    |(xs.map (pyRound 2)).sum - xs.sum| ≤ xs.length * (1/200) := by
  induction xs with
  | nil => simp
  | cons x t ih =>
    simp only [List.map_cons, List.sum_cons, List.length_cons]
    have hx := abs_pyRound_sub_le 2 x
    norm_num at hx
    calc |pyRound 2 x + (t.map (pyRound 2)).sum - (x + t.sum)|
        = |(pyRound 2 x - x) + ((t.map (pyRound 2)).sum - t.sum)| := by ring_nf
      _ ≤ |pyRound 2 x - x| + |(t.map (pyRound 2)).sum - t.sum| := abs_add _ _
      _ ≤ 1/200 + t.length * (1/200) := by
          have := ih
          linarith
      _ = (t.length + 1) * (1/200) := by ring
      _ = ((t.length : ℕ) + 1 : ℚ) * (1/200) := by norm_num
    push_cast
    linarith

theorem sum_map_divmul (counts : List ℕ) (t : ℚ) :
    (counts.map fun cnt : ℕ => ((cnt : ℚ) / t * 100)).sum = ((counts.sum : ℕ) : ℚ) / t * 100 := by
  induction counts with
  | nil => simp
  | cons c rest ih =>
    simp only [List.map_cons, List.sum_cons, ih]
    push_cast
    ring

theorem edc_sorted (K : PixelBuffer → Option KMeansResult) (img : PixelBuffer) (idx : List ℕ)
    (r : KMeansResult) (h : K (sampled_pixels img idx) = some r) :
    (extract_dominant_colors K img idx).Pairwise
      fun a b => b.percentage ≤ a.percentage := by
  rw [edc_some K img idx r h]
  have hs := @List.sorted_mergeSort ColorEntry
    (fun a b : ColorEntry => decide (b.percentage ≤ a.percentage))
    (fun a b c h1 h2 => by
      simp only [decide_eq_true_eq] at h1 h2 ⊢
      exact le_trans h2 h1)
    (fun a b => by
      simp only [Bool.or_eq_true, decide_eq_true_eq]
      exact le_total b.percentage a.percentage)
    ((r.centers.zip ((np_unique r.labels).map fun v => r.labels.count v)).map
      (mk_color_entry r.labels.length))
  exact List.Pairwise.imp (fun hab => by simpa using hab) hs

/-- Claim C9 amended: when clustering succeeds, `extract_dominant_colors`
returns one entry per *distinct cluster label* — exactly `n_colors` = 5
entries whenever every cluster is nonempty, but fewer when some cluster
receives no sample (as happens for degenerate inputs with fewer distinct
colors than clusters) — sorted in descending order of percentage, with
percentages summing to 100 within 0.5; on clustering failure it returns
exactly the single mean-color entry at percentage 100. -/
theorem extract_dominant_colors_spec (K : PixelBuffer → Option KMeansResult)
    (img : PixelBuffer) (idx : List ℕ) :
    (∀ r : KMeansResult, K (sampled_pixels img idx) = some r →
      r.centers.length = 5 → (∀ l ∈ r.labels, l < 5) → r.labels ≠ [] →
      (extract_dominant_colors K img idx).length = (np_unique r.labels).length ∧
      (np_unique r.labels).length ≤ 5 ∧
      ((∀ c, c < 5 → c ∈ r.labels) → (extract_dominant_colors K img idx).length = 5) ∧
      (extract_dominant_colors K img idx).Pairwise
        (fun a b => b.percentage ≤ a.percentage) ∧
      |((extract_dominant_colors K img idx).map fun e => e.percentage).sum - 100| ≤ 1/2) ∧
    (K (sampled_pixels img idx) = none →
      extract_dominant_colors K img idx = [fallback_entry (sampled_pixels img idx)]) := by
  constructor
  · intro r hK hc hlab hne
    have hulen : (np_unique r.labels).length ≤ 5 := by
      rw [np_unique_length]
      exact dedup_length_le r.labels 5 hlab
    have hlen1 : (extract_dominant_colors K img idx).length = (np_unique r.labels).length := by
      rw [edc_length K img idx r hK, hc]
      exact min_eq_right hulen
    refine ⟨hlen1, hulen, ?_, edc_sorted K img idx r hK, ?_⟩
    · intro hsurj
      rw [hlen1, np_unique_length]
      exact dedup_length_eq r.labels 5 hlab hsurj
    · -- percentage sum
      have htot0 : (r.labels.length : ℚ) ≠ 0 := by
        have : r.labels.length ≠ 0 := fun hz => hne (List.length_eq_zero.mp hz)
        exact_mod_cast Nat.cast_ne_zero.mpr this
      have hcle : ((np_unique r.labels).map fun v => r.labels.count v).length ≤
          r.centers.length := by
        rw [List.length_map, hc]
        exact hulen
      have hmap1 : ((extract_dominant_colors K img idx).map fun e => e.percentage).sum =
          ((((r.centers.zip ((np_unique r.labels).map fun v => r.labels.count v)).map
            (mk_color_entry r.labels.length)).map fun e => e.percentage).sum) := by
        rw [edc_some K img idx r hK]
        exact (((List.mergeSort_perm _ _).map fun e : ColorEntry => e.percentage).sum_eq)
      have hmap2 : (((r.centers.zip ((np_unique r.labels).map fun v => r.labels.count v)).map
            (mk_color_entry r.labels.length)).map fun e => e.percentage) =
          ((np_unique r.labels).map fun v => r.labels.count v).map
            (fun cnt : ℕ => pyRound 2 ((cnt : ℚ) / (r.labels.length : ℚ) * 100)) := by
        rw [List.map_map]
        have hfun : ((fun e : ColorEntry => e.percentage) ∘ mk_color_entry r.labels.length) =
            fun p : (ℚ × ℚ × ℚ) × ℕ =>
              pyRound 2 ((p.2 : ℚ) / (r.labels.length : ℚ) * 100) := rfl
        rw [hfun]
        exact map_snd_zip_of_le
          (fun cnt : ℕ => pyRound 2 ((cnt : ℚ) / (r.labels.length : ℚ) * 100))
          r.centers _ hcle
      have hmap3 : (((np_unique r.labels).map fun v => r.labels.count v).map
            fun cnt : ℕ => pyRound 2 ((cnt : ℚ) / (r.labels.length : ℚ) * 100)) =
          (((np_unique r.labels).map fun v => r.labels.count v).map
            fun cnt : ℕ => ((cnt : ℚ) / (r.labels.length : ℚ) * 100)).map (pyRound 2) := by
        simp only [List.map_map]
        rfl
      have hsum_raw : ((((np_unique r.labels).map fun v => r.labels.count v).map
            fun cnt : ℕ => ((cnt : ℚ) / (r.labels.length : ℚ) * 100))).sum = 100 := by
        rw [sum_map_divmul, sum_counts_np_unique, div_self htot0, one_mul]
      have hnear := sum_map_pyRound2_near
        (((np_unique r.labels).map fun v => r.labels.count v).map
          fun cnt : ℕ => ((cnt : ℚ) / (r.labels.length : ℚ) * 100))
      rw [hsum_raw] at hnear
      have hlenb : ((((np_unique r.labels).map fun v => r.labels.count v).map
          fun cnt : ℕ => ((cnt : ℚ) / (r.labels.length : ℚ) * 100))).length ≤ 5 := by
        rw [List.length_map, List.length_map]
        exact hulen
      rw [hmap1, hmap2, hmap3]
      have : ((((np_unique r.labels).map fun v => r.labels.count v).map
          fun cnt : ℕ => ((cnt : ℚ) / (r.labels.length : ℚ) * 100)).length : ℚ) * (1/200) ≤
          5 * (1/200) := by
        have : ((((np_unique r.labels).map fun v => r.labels.count v).map
            fun cnt : ℕ => ((cnt : ℚ) / (r.labels.length : ℚ) * 100)).length : ℚ) ≤ 5 := by
          exact_mod_cast hlenb
        linarith
      calc |((((np_unique r.labels).map fun v => r.labels.count v).map
            fun cnt : ℕ => ((cnt : ℚ) / (r.labels.length : ℚ) * 100)).map (pyRound 2)).sum
            - 100| ≤ _ * (1/200) := hnear
        _ ≤ 5 * (1/200) := this
        _ ≤ 1/2 := by norm_num
  · exact edc_none K img idx

/-- Counterexample to claim C9 as stated: on the 4-pixel all-black buffer
the (conforming, optimal: within-cluster squared distance 0) clustering
collaborator succeeds — no fallback — and assigns every sample the same
label, so `np.unique` yields a single label and the zip with the centers
produces exactly 1 entry, not `n_colors` = 5. -/
theorem extract_dominant_colors_counterexample :
    kmeansExact img4Black ≠ none ∧
    sampled_pixels img4Black [] = img4Black ∧
    (extract_dominant_colors kmeansExact img4Black []).length = 1 := by
  have hded : img4Black.dedup = [blackPx] := by
    unfold img4Black
    exact dedup_replicate 4 (by norm_num) blackPx
  have hsamp : sampled_pixels img4Black [] = img4Black := by
    unfold sampled_pixels img4Black
    rw [if_neg (by rw [List.length_replicate]; norm_num)]
  have hK : kmeansExact img4Black =
      some ⟨[blackPx].map (fun p => ((p.1.val : ℚ), (p.2.1.val : ℚ), (p.2.2.val : ℚ))) ++
          List.replicate (5 - [blackPx].length) (0, 0, 0),
        img4Black.map fun p => [blackPx].indexOf p⟩ := by
    unfold kmeansExact
    rw [hded, if_pos (by rw [List.length_cons, List.length_nil]; norm_num)]
  refine ⟨by rw [hK]; exact fun hcon => Option.noConfusion hcon, hsamp, ?_⟩
  have hK2 : kmeansExact (sampled_pixels img4Black []) =
      some ⟨[blackPx].map (fun p => ((p.1.val : ℚ), (p.2.1.val : ℚ), (p.2.2.val : ℚ))) ++
          List.replicate (5 - [blackPx].length) (0, 0, 0),
        img4Black.map fun p => [blackPx].indexOf p⟩ := by
    rw [hsamp]
    exact hK
  rw [edc_length kmeansExact img4Black [] _ hK2]
  have hlab : (img4Black.map fun p => [blackPx].indexOf p) = List.replicate 4 0 := by
    unfold img4Black
    rw [List.map_replicate]
    rfl
  have hcent : ([blackPx].map (fun p => ((p.1.val : ℚ), (p.2.1.val : ℚ), (p.2.2.val : ℚ))) ++
      List.replicate (5 - [blackPx].length) ((0 : ℚ), (0 : ℚ), (0 : ℚ))).length = 5 := by
    rw [List.length_append, List.length_map, List.length_replicate]
    rfl
  show min _ (np_unique _).length = 1
  rw [hlab, hcent, np_unique_length, dedup_replicate 4 (by norm_num) 0]
  rfl

/-- Witness for C9 (amended) at a 5-distinct-color buffer with the
conforming exact clusterer: every cluster is nonempty, so exactly 5
entries are returned. -/
theorem extract_dominant_colors_spec_witness :
    (extract_dominant_colors kmeansExact img5 []).length = 5 := by
  have hnodup : img5.Nodup := by decide
  have hded : img5.dedup = img5 := List.dedup_eq_self.mpr hnodup
  have hsamp : sampled_pixels img5 [] = img5 := by
    unfold sampled_pixels
    rw [if_neg (by rw [show img5.length = 5 from rfl]; norm_num)]
  have hK : kmeansExact (sampled_pixels img5 []) =
      some ⟨img5.map (fun p => ((p.1.val : ℚ), (p.2.1.val : ℚ), (p.2.2.val : ℚ))) ++
          List.replicate (5 - img5.length) (0, 0, 0),
        img5.map fun p => img5.indexOf p⟩ := by
    rw [hsamp]
    unfold kmeansExact
    rw [hded, if_pos (by rw [show img5.length = 5 from rfl])]
  have hlabels : (img5.map fun p => img5.indexOf p) = [0, 1, 2, 3, 4] := by decide
  refine ((extract_dominant_colors_spec kmeansExact img5 []).1 _ hK ?_ ?_ ?_).2.2.1 ?_
  · show (img5.map _ ++ List.replicate (5 - img5.length) _).length = 5
    rw [List.length_append, List.length_map]
    rfl
  · show ∀ l ∈ (img5.map fun p => img5.indexOf p), l < 5
    rw [hlabels]
    decide
  · show (img5.map fun p => img5.indexOf p) ≠ []
    rw [hlabels]
    decide
  · show ∀ c, c < 5 → c ∈ (img5.map fun p => img5.indexOf p)
    rw [hlabels]
    decide

theorem getD_replicate_lt {α : Type} (n i : ℕ) (a d : α) (h : i < n) :
    (List.replicate n a).getD i d = a := by
  rw [List.getD_eq_getElem _ _ (by rwa [List.length_replicate])]
  exact List.getElem_replicate a _

theorem sampled_draw1 : sampled_pixels bigImg draw1 = List.replicate 10000 blackPx := by
  have hlen : bigImg.length = 10001 := by
    unfold bigImg
    rw [List.length_append, List.length_replicate]
    rfl
  unfold sampled_pixels
  rw [if_pos (by rw [hlen]; norm_num)]
  unfold draw1
  rw [List.eq_replicate_iff]
  constructor
  · rw [List.length_map, List.length_range]
  · intro b hb
    rw [List.mem_map] at hb
    obtain ⟨i, hi, hig⟩ := hb
    rw [List.mem_range] at hi
    rw [← hig]
    unfold bigImg
    rw [List.getD_append _ _ _ _ (by rwa [List.length_replicate])]
    exact getD_replicate_lt 10000 i blackPx _ hi

theorem sampled_draw2 :
    sampled_pixels bigImg draw2 = whitePx :: List.replicate 9999 blackPx := by
  have hlen : bigImg.length = 10001 := by
    unfold bigImg
    rw [List.length_append, List.length_replicate]
    rfl
  unfold sampled_pixels
  rw [if_pos (by rw [hlen]; norm_num)]
  unfold draw2
  rw [List.map_cons]
  have hhead : bigImg.getD 10000 ((0 : Fin 256), (0 : Fin 256), (0 : Fin 256)) = whitePx := by
    unfold bigImg
    rw [List.getD_append_right _ _ _ _ (by rw [List.length_replicate])]
    rw [List.length_replicate, show (10000 - 10000 : ℕ) = 0 by norm_num]
    rfl
  have htail : (List.range 9999).map
      (fun i => bigImg.getD i ((0 : Fin 256), (0 : Fin 256), (0 : Fin 256))) =
      List.replicate 9999 blackPx := by
    rw [List.eq_replicate_iff]
    constructor
    · rw [List.length_map, List.length_range]
    · intro b hb
      rw [List.mem_map] at hb
      obtain ⟨i, hi, hig⟩ := hb
      rw [List.mem_range] at hi
      rw [← hig]
      unfold bigImg
      rw [List.getD_append _ _ _ _ (by rw [List.length_replicate]; omega)]
      exact getD_replicate_lt 10000 i blackPx _ (by omega)
  rw [hhead, htail]

/-- Claim C1 refuted on the code (code bug): the pixel-sampling draw of
`extract_dominant_colors` comes from the *unseeded* global numpy
generator (`np.random.choice` at `color.py` line 80; only the k-means
initialization is seeded), so on a buffer with more than 10,000 pixels
two runs are two different valid draws.  On the 10001-pixel buffer
`bigImg`, the two valid draws `draw1` and `draw2` (each 10000 distinct
in-range indices) make the deterministic, conforming clustering
collaborator `kmeansExact` see different sample sets (all-black versus
black-plus-white) and return dominant-color lists that differ — 1 entry
versus 2 — so the output is not a function of the image alone and
repeated calls need not be byte-identical. -/
theorem extract_dominant_colors_sampling_bug :
    bigImg.length = 10001 ∧
    draw1.length = 10000 ∧ draw2.length = 10000 ∧
    draw1.Nodup ∧ draw2.Nodup ∧
    draw1.all (fun i => decide (i < 10001)) = true ∧
    draw2.all (fun i => decide (i < 10001)) = true ∧
    extract_dominant_colors kmeansExact bigImg draw1 ≠
      extract_dominant_colors kmeansExact bigImg draw2 := by
  have hlen : bigImg.length = 10001 := by
    unfold bigImg
    rw [List.length_append, List.length_replicate]
    rfl
  refine ⟨hlen, by rw [show draw1 = List.range 10000 from rfl, List.length_range],
    by rw [show draw2 = 10000 :: List.range 9999 from rfl, List.length_cons,
      List.length_range],
    List.nodup_range 10000,
    List.nodup_cons.mpr ⟨by rw [List.mem_range]; omega, List.nodup_range 9999⟩,
    ?_, ?_, ?_⟩
  · rw [List.all_eq_true]
    intro i hi
    rw [show draw1 = List.range 10000 from rfl, List.mem_range] at hi
    rw [decide_eq_true_eq]
    omega
  · rw [List.all_eq_true]
    intro i hi
    rw [show draw2 = 10000 :: List.range 9999 from rfl, List.mem_cons, List.mem_range] at hi
    rw [decide_eq_true_eq]
    omega
  · -- the two outputs have different lengths: 1 versus 2
    have hK1 : kmeansExact (sampled_pixels bigImg draw1) =
        some ⟨[blackPx].map (fun p => ((p.1.val : ℚ), (p.2.1.val : ℚ), (p.2.2.val : ℚ))) ++
            List.replicate (5 - [blackPx].length) (0, 0, 0),
          (List.replicate 10000 blackPx).map fun p => [blackPx].indexOf p⟩ := by
      rw [sampled_draw1]
      unfold kmeansExact
      rw [dedup_replicate 10000 (by norm_num) blackPx,
        if_pos (by rw [List.length_cons, List.length_nil]; norm_num)]
    have hded2 : (whitePx :: List.replicate 9999 blackPx).dedup = [whitePx, blackPx] := by
      rw [List.dedup_cons_of_not_mem (by
        rw [List.mem_replicate]
        exact fun h => absurd h.2 (by decide))]
      rw [dedup_replicate 9999 (by norm_num) blackPx]
    have hK2 : kmeansExact (sampled_pixels bigImg draw2) =
        some ⟨[whitePx, blackPx].map
            (fun p => ((p.1.val : ℚ), (p.2.1.val : ℚ), (p.2.2.val : ℚ))) ++
            List.replicate (5 - [whitePx, blackPx].length) (0, 0, 0),
          (whitePx :: List.replicate 9999 blackPx).map
            fun p => [whitePx, blackPx].indexOf p⟩ := by
      rw [sampled_draw2]
      unfold kmeansExact
      rw [hded2, if_pos (by norm_num [List.length_cons])]
    have hout1 : (extract_dominant_colors kmeansExact bigImg draw1).length = 1 := by
      rw [edc_length kmeansExact bigImg draw1 _ hK1]
      have hlab1 : ((List.replicate 10000 blackPx).map fun p => [blackPx].indexOf p) =
          List.replicate 10000 0 := by
        rw [List.map_replicate]
        rfl
      show min _ (np_unique _).length = 1
      rw [hlab1, np_unique_length, dedup_replicate 10000 (by norm_num) 0]
      rfl
    have hout2 : (extract_dominant_colors kmeansExact bigImg draw2).length = 2 := by
      rw [edc_length kmeansExact bigImg draw2 _ hK2]
      have hlab2 : ((whitePx :: List.replicate 9999 blackPx).map
          fun p => [whitePx, blackPx].indexOf p) = 0 :: List.replicate 9999 1 := by
        rw [List.map_cons, List.map_replicate]
        rfl
      show min _ (np_unique _).length = 2
      rw [hlab2, np_unique_length,
        List.dedup_cons_of_not_mem (by
          rw [List.mem_replicate]
          exact fun h => absurd h.2 (by decide)),
        dedup_replicate 9999 (by norm_num) 1]
      rfl
    intro hcontra
    rw [hcontra, hout2] at hout1
    exact absurd hout1 (by norm_num)
